import Mathlib

/-!
Verification of the evidence-screenshotter capture and extraction core.

The definitions below are a shallow embedding of the TypeScript sources:
content-scripts/extractor.ts (page-type detection, Readability and fallback
extraction, the EXTRACT_CONTENT message handler, viewport-capture retry with
backoff, full-page scroll stitching), content-scripts/extractor-lite.ts,
the shared constants module, and the paragraph defragmenter
collapseFragmentedParagraphs.  Browser primitives (DOM queries, DOMPurify,
Readability.parse, URL parsing, chrome.runtime messaging) are treated as
environment parameters; all control flow and arithmetic performed by the
program itself is reproduced.
-/

namespace Evidence

/-- Whitespace test matching String.prototype.trim for the ASCII whitespace
characters relevant here. -/
def isJsWhitespace (c : Char) : Bool :=
  c = ' ' || c = '\t' || c = '\n' || c = '\r'

/-- Embedding of JavaScript s.trim(). -/
def jsTrim (s : String) : String :=
  String.mk (((s.data.dropWhile isJsWhitespace).reverse.dropWhile isJsWhitespace).reverse)

/-- Embedding of JavaScript s.slice(0, n) for n at least 0. -/
def jsSlice (s : String) (n : Nat) : String := String.mk (s.data.take n)

/-- Helper for substring containment: does needle occur in the list? -/
def includesAux (needle : List Char) : List Char → Bool
  | [] => needle.isEmpty
  | c :: rest => needle.isPrefixOf (c :: rest) || includesAux needle rest

/-- Embedding of JavaScript s.includes(sub). -/
def strIncludes (s sub : String) : Bool := includesAux sub.data s.data

/-- Embedding of JavaScript s.toLowerCase() (ASCII). -/
def jsLower (s : String) : String := String.mk (s.data.map Char.toLower)

/-- JavaScript s or-else dflt for strings: the empty string is falsy. -/
def jsOr (s dflt : String) : String := if s = "" then dflt else s

/-- JavaScript s or-else undefined for an optional string: empty and missing
strings both become none. -/
def jsOrNone (s : Option String) : Option String :=
  match s with
  | some t => if t = "" then none else some t
  | none => none

/-- SOCIAL_MEDIA_DOMAINS from shared/constants.ts. -/
def SOCIAL_MEDIA_DOMAINS : List String :=
  ["twitter.com", "x.com", "facebook.com", "fb.com", "instagram.com",
   "linkedin.com", "threads.net", "mastodon.social", "bsky.app"]

/-- FORUM_INDICATORS from shared/constants.ts. -/
def FORUM_INDICATORS : List String :=
  ["reddit.com", "news.ycombinator.com", "discourse", "forum", "forums", "community"]

/-- The CAPTURE_CONFIG record from shared/constants.ts. -/
structure CaptureConfig where
  scrollDelay : Nat
  maxPageHeight : Nat
  minCaptureDelay : Nat
  rateLimitMs : Nat
deriving DecidableEq, Repr

/-- CAPTURE_CONFIG values: scrollDelay 150, maxPageHeight 120000,
minCaptureDelay 50, rateLimitMs 550. -/
def CAPTURE_CONFIG : CaptureConfig := ⟨150, 120000, 50, 550⟩

/-- PageType from shared/types.ts. -/
inductive PageType where
  | article
  | socialMedia
  | forum
  | generic
deriving DecidableEq, Repr

/-- ExtractionStrategy from shared/types.ts. -/
inductive ExtractionStrategy where
  | readability
  | heuristic
deriving DecidableEq, Repr

/-- ExtractedImage from shared/types.ts. -/
structure ExtractedImage where
  src : String
  alt : String
  caption : Option String
deriving DecidableEq, Repr

/-- ExtractedContent from shared/types.ts.  confidence is modelled as a
rational; every numeric literal the program uses (0, 0.4, 0.5, 0.8) is
exactly representable. -/
structure ExtractedContent where
  title : String
  content : String
  textContent : String
  byline : Option String
  publishedTime : Option String
  images : List ExtractedImage
  pageType : PageType
  confidence : ℚ
deriving DecidableEq, Repr

/-- The structural signals isLikelyArticle reads from the DOM: presence of
the queried selectors and the og:type meta content. -/
structure ArticleSignals where
  hasArticleTag : Bool
  hasMainContent : Bool
  hasAuthor : Bool
  hasPublishDate : Bool
  ogType : Option String
deriving DecidableEq, Repr

/-- The score accumulated by isLikelyArticle in extractor.ts. -/
def articleScore (d : ArticleSignals) : Nat :=
  (if d.hasArticleTag then 2 else 0) +
  (if d.hasMainContent then 1 else 0) +
  (if d.hasAuthor then 1 else 0) +
  (if d.hasPublishDate then 1 else 0) +
  (if d.ogType = some "article" then 2 else 0)

/-- isLikelyArticle from extractor.ts: score at least 3. -/
def isLikelyArticle (d : ArticleSignals) : Bool := decide (3 ≤ articleScore d)

/-- detectPageType from extractor.ts.  rawHostname stands for
(new URL(url)).hostname, which is supplied by the browser environment. -/
def detectPageType (url rawHostname : String) (d : ArticleSignals) : PageType :=
  let hostname := jsLower rawHostname
  if SOCIAL_MEDIA_DOMAINS.any (fun dom => strIncludes hostname dom) then
    PageType.socialMedia
  else if FORUM_INDICATORS.any
      (fun ind => strIncludes hostname ind || strIncludes (jsLower url) ind) then
    PageType.forum
  else if isLikelyArticle d then
    PageType.article
  else
    PageType.generic

/-- The fields of a Readability.parse() article that the extractor reads. -/
structure ReadabilityArticle where
  title : String
  textContent : Option String
  byline : Option String
  publishedTime : Option String
deriving DecidableEq, Repr

/-- extractWithReadability from extractor.ts, parameterized by the parse
outcome and by the environment-computed sanitized content, image list and
page type.  Returns none when parse returned null; the catch branch of the
source likewise yields null and is covered by passing none. -/
def extractWithReadability (article : Option ReadabilityArticle)
    (cleanedContent : String) (images : List ExtractedImage) (pageType : PageType) :
    Option ExtractedContent :=
  match article with
  | none => none
  | some a =>
    some ⟨a.title, cleanedContent, a.textContent.getD "",
      jsOrNone a.byline, jsOrNone a.publishedTime, images, pageType, 0.8⟩

/-- The document inputs extractFallback reads: the page title, the main
element's textContent, the sanitized markup produced by DOMPurify, and the
detected page type. -/
structure FallbackDoc where
  docTitle : String
  mainTextContent : Option String
  sanitizedContent : String
  pageType : PageType
deriving DecidableEq, Repr

/-- extractFallback from extractor.ts: title falls back to Untitled Page,
the plain text is trimmed and sliced to 50000 characters, confidence 0.4. -/
def extractFallback (doc : FallbackDoc) : ExtractedContent :=
  let textContent := jsOr (jsTrim (doc.mainTextContent.getD "")) ""
  ⟨jsOr doc.docTitle "Untitled Page", doc.sanitizedContent,
    jsSlice textContent 50000, none, none, [], doc.pageType, 0.4⟩

/-- extractContent from extractor.ts, parameterized by the results the two
sub-extractors produce for the live document. -/
def extractContent (strategy : ExtractionStrategy)
    (readabilityResult : Option ExtractedContent) (fallbackResult : ExtractedContent) :
    ExtractedContent :=
  match readabilityResult with
  | some r =>
    if (0.5 : ℚ) < r.confidence then r
    else if strategy = ExtractionStrategy.heuristic then
      ⟨jsOr r.title fallbackResult.title, fallbackResult.content,
        fallbackResult.textContent, r.byline, r.publishedTime,
        fallbackResult.images, fallbackResult.pageType,
        max r.confidence fallbackResult.confidence⟩
    else r
  | none => fallbackResult

/-- The document inputs the lite extractor reads: page title, the cleaned
clone's textContent, the serialized and defragmented markup, the byline
found by selector search, and the detected page type. -/
structure LiteDoc where
  docTitle : String
  cloneTextContent : Option String
  collapsedContent : String
  byline : Option String
  pageType : PageType
deriving DecidableEq, Repr

/-- extractContent from extractor-lite.ts: plain text trimmed and sliced to
50000 characters, fixed confidence 0.5. -/
def extractContentLite (doc : LiteDoc) : ExtractedContent :=
  let textContent := jsOr (jsTrim (doc.cloneTextContent.getD "")) ""
  ⟨jsOr doc.docTitle "Untitled Page",
    jsOr doc.collapsedContent "<p>No content could be extracted.</p>",
    jsSlice textContent 50000, doc.byline, none, [], doc.pageType, 0.5⟩

/-- The EXTRACTION_COMPLETE message sent back by the content script. -/
structure ExtractionCompleteMessage where
  msgType : String
  content : ExtractedContent
  url : String
  title : String
deriving DecidableEq, Repr

/-- The minimal fallback content built in the catch branch of the
EXTRACT_CONTENT handler. -/
def placeholderContent (docTitle : String) : ExtractedContent :=
  ⟨jsOr docTitle "Unknown Page", "<p>Content extraction failed</p>",
    "Content extraction failed", none, none, [], PageType.generic, 0⟩

/-- The EXTRACT_CONTENT branch of the onMessage listener in extractor.ts:
extraction is the outcome of the extractContent call, with a thrown
exception modelled as an error value. -/
def handleExtractContent (docTitle url : String)
    (extraction : Except String ExtractedContent) : ExtractionCompleteMessage :=
  match extraction with
  | Except.ok c => ⟨"EXTRACTION_COMPLETE", c, url, docTitle⟩
  | Except.error _ => ⟨"EXTRACTION_COMPLETE", placeholderContent docTitle, url, docTitle⟩

/-- Outcome of one CAPTURE_VIEWPORT round trip: the promise in
requestViewportCapture either resolves with a data URL or rejects with an
error message. -/
inductive CaptureOutcome where
  | success (dataUrl : String)
  | failure (message : String)
deriving DecidableEq, Repr

/-- The Chrome rate-limit error signature tested for in
captureViewportWithRetry. -/
def rateLimitSignature : String := "MAX_CAPTURE_VISIBLE_TAB_CALLS_PER_SECOND"

/-- The rate-limit test: the rejection message contains the signature. -/
def isRateLimitError (message : String) : Bool := strIncludes message rateLimitSignature

/-- The for-loop of captureViewportWithRetry in extractor.ts.  attempts i is
the outcome of the i-th requestViewportCapture call; remaining counts loop
iterations still allowed (maxRetries minus attempt).  On success the current
delay is returned unchanged; on a rate-limited rejection before the last
attempt the delay is multiplied by 1.5 and capped at 2000; any other
rejection, or a rate-limited rejection on the last attempt, is rethrown. -/
def retryLoop (attempts : Nat → CaptureOutcome) (maxRetries : Nat) :
    (attempt : Nat) → (remaining : Nat) → (delay : ℚ) → Except String (String × ℚ)
  | _, 0, _ => Except.error "Max retries exceeded for viewport capture"
  | attempt, remaining + 1, delay =>
    match attempts attempt with
    | CaptureOutcome.success dataUrl => Except.ok (dataUrl, delay)
    | CaptureOutcome.failure msg =>
      if isRateLimitError msg && decide (attempt < maxRetries - 1) then
        retryLoop attempts maxRetries (attempt + 1) remaining (min (delay * 1.5) 2000)
      else Except.error msg

/-- captureViewportWithRetry from extractor.ts (the caller always passes
maxRetries = 5). -/
def captureViewportWithRetry (currentDelay : ℚ) (maxRetries : Nat)
    (attempts : Nat → CaptureOutcome) : Except String (String × ℚ) :=
  retryLoop attempts maxRetries 0 maxRetries currentDelay

/-- The section count computed at the top of captureFullPage:
Math.ceil(Math.min(totalHeight, maxPageHeight) / viewportHeight). -/
def numCaptures (totalHeight viewportHeight : Nat) : Nat :=
  (⌈((min totalHeight CAPTURE_CONFIG.maxPageHeight : Nat) : ℚ) / (viewportHeight : ℚ)⌉).toNat

/-- Observable state left behind by captureFullPage: the page's scroll
position when the function settles, the successive values of adaptiveDelay
at the start of each executed section, the composited canvas (drawn data
URLs with their destination offsets), and the overall outcome. -/
structure StitchRun where
  finalScrollY : Nat
  delayTrace : List ℚ
  canvas : List (String × Nat)
  outcome : Except String Unit
deriving Repr

/-- The section loop of captureFullPage in extractor.ts.  env i is the
attempt-outcome sequence for section i's captureViewportWithRetry call.  On
a section failure the error propagates at once; the source has no
try/finally, so the loop aborts without restoring the original scroll
position.  After the last section the source scrolls back to
origScrollY and returns the encoded canvas. -/
def stitchLoop (env : Nat → Nat → CaptureOutcome) (viewportHeight origScrollY : Nat) :
    (i : Nat) → (remaining : Nat) → (adaptiveDelay : ℚ) →
    (canvas : List (String × Nat)) → StitchRun
  | _, 0, _, canvas => ⟨origScrollY, [], canvas.reverse, Except.ok ()⟩
  | i, remaining + 1, adaptiveDelay, canvas =>
    match captureViewportWithRetry adaptiveDelay 5 (env i) with
    | Except.ok (dataUrl, nextDelay) =>
      let rest := stitchLoop env viewportHeight origScrollY (i + 1) remaining nextDelay
        ((dataUrl, i * viewportHeight) :: canvas)
      ⟨rest.finalScrollY, adaptiveDelay :: rest.delayTrace, rest.canvas, rest.outcome⟩
    | Except.error e => ⟨i * viewportHeight, [adaptiveDelay], canvas.reverse, Except.error e⟩

/-- captureFullPage from extractor.ts: adaptiveDelay starts at
CAPTURE_CONFIG.rateLimitMs and the loop runs numCaptures sections. -/
def captureFullPage (env : Nat → Nat → CaptureOutcome)
    (viewportHeight totalHeight origScrollY : Nat) : StitchRun :=
  stitchLoop env viewportHeight origScrollY 0 (numCaptures totalHeight viewportHeight)
    (CAPTURE_CONFIG.rateLimitMs : ℚ) []

/-- A snapshot entry of the defragmenter: a DOM child element summarized by
tag name, textContent, and whether it is still attached to the container
(Element.remove() detaches the node but the Array.from snapshot keeps it). -/
structure DomNode where
  tag : String
  text : String
  attached : Bool
deriving DecidableEq, Repr

/-- A container child summarized by tag name and text content. -/
structure Block where
  tag : String
  text : String
deriving DecidableEq, Repr

/-- SHORT_PARAGRAPH_THRESHOLD from paragraph-utils.ts. -/
def SHORT_PARAGRAPH_THRESHOLD : Nat := 80

/-- (child.textContent or empty).trim().length from paragraph-utils.ts. -/
def trimmedLen (s : String) : Nat := (jsTrim s).length

/-- Is this snapshot node a short paragraph: tagName P and trimmed text not
exceeding the threshold (the two separate checks of the source combined)? -/
def isShortP (threshold : Nat) (n : DomNode) : Bool :=
  n.tag == "P" && decide (trimmedLen n.text ≤ threshold)

/-- Text of the merge target after the inner k-loop: for every further run
member a single space text node is appended followed by the member's child
nodes, so the target's textContent becomes the space-separated
concatenation. -/
def mergeText (base : String) (run : List DomNode) : String :=
  run.foldl (fun acc e => acc ++ " " ++ e.text) base

/-- The while-loop of collapseFragmentedParagraphs over the snapshot array,
starting at the current index (the list argument is the snapshot suffix from
that index; entries before it are never mutated again).  A merge empties and
detaches the trailing run members but advances the index by only one, so the
loop revisits the emptied entries; this is modelled by recursing on the
emptied entries followed by the untouched remainder.  fuel bounds the number
of iterations; length + 1 always suffices because every step discards at
least one snapshot entry. -/
def collapseLoop (threshold : Nat) : (fuel : Nat) → List DomNode → List DomNode
  | 0, l => l
  | _ + 1, [] => []
  | fuel + 1, child :: rest =>
    if isShortP threshold child then
      let run := rest.takeWhile (isShortP threshold)
      let rest2 := rest.dropWhile (isShortP threshold)
      if 3 ≤ run.length + 1 then
        ⟨child.tag, mergeText child.text run, child.attached⟩ ::
          collapseLoop threshold fuel (run.map (fun e => ⟨e.tag, "", false⟩) ++ rest2)
      else
        child :: (run ++ collapseLoop threshold fuel rest2)
    else
      child :: collapseLoop threshold fuel rest

/-- collapseFragmentedParagraphs from paragraph-utils.ts: the container's
children (tag and text) after the call, for a container whose children are
the given blocks. -/
def collapseFragmentedParagraphs (threshold : Nat) (blocks : List Block) : List Block :=
  ((collapseLoop threshold (blocks.length + 1)
      (blocks.map (fun b => ⟨b.tag, b.text, true⟩))).filter
    (fun n => n.attached)).map (fun n => ⟨n.tag, n.text⟩)

/-- Short-paragraph test at the block level. -/
def isShortPB (threshold : Nat) (b : Block) : Bool :=
  b.tag == "P" && decide (trimmedLen b.text ≤ threshold)

/-- Space-separated merge at the block level. -/
def mergeTextB (base : String) (run : List Block) : String :=
  run.foldl (fun acc e => acc ++ " " ++ e.text) base

/-- One defragmentation pass described directly on the block list: each
maximal run of three or more consecutive short paragraphs becomes one merged
block; shorter runs and non-qualifying blocks pass through.  Proved below to
equal collapseFragmentedParagraphs. -/
def collapsePure (threshold : Nat) : List Block → List Block
  | [] => []
  | b :: rest =>
    if isShortPB threshold b then
      if 3 ≤ (rest.takeWhile (isShortPB threshold)).length + 1 then
        ⟨b.tag, mergeTextB b.text (rest.takeWhile (isShortPB threshold))⟩ ::
          collapsePure threshold (rest.dropWhile (isShortPB threshold))
      else
        b :: (rest.takeWhile (isShortPB threshold) ++
          collapsePure threshold (rest.dropWhile (isShortPB threshold)))
    else
      b :: collapsePure threshold rest
termination_by l => l.length
decreasing_by
  · exact Nat.lt_succ_of_le ((List.dropWhile_sublist _).length_le)
  · exact Nat.lt_succ_of_le ((List.dropWhile_sublist _).length_le)
  · exact Nat.lt_succ_of_le (Nat.le_refl _)

/-- Does the list contain three consecutive short paragraphs (a mergeable
run)? -/
def hasRun3 (threshold : Nat) : List Block → Bool
  | a :: b :: c :: rest =>
    (isShortPB threshold a && isShortPB threshold b && isShortPB threshold c) ||
      hasRun3 threshold (b :: c :: rest)
  | _ => false

/-! ### General helper lemmas -/

lemma toNat_ceil_natCast_div (a b : Nat) (hb : 0 < b) :
    (⌈(a : ℚ) / (b : ℚ)⌉).toNat = (a + b - 1) / b := by
  set n := (a + b - 1) / b with hn
  have hbq : (0 : ℚ) < (b : ℚ) := by exact_mod_cast hb
  have h2 : n * b ≤ a + b - 1 := Nat.div_mul_le_self _ _
  have h3 : a + b - 1 < n * b + b := by
    have h := (Nat.div_lt_iff_lt_mul hb).mp (Nat.lt_succ_self n)
    rw [Nat.succ_mul] at h
    simpa [hn] using h
  have ha_le : a ≤ n * b := by omega
  have hb_lt : n * b < a + b := by omega
  have hceil : ⌈(a : ℚ) / (b : ℚ)⌉ = (n : ℤ) := by
    rw [Int.ceil_eq_iff]
    constructor
    · rw [lt_div_iff₀ hbq]
      have hcast : ((n : ℚ)) * (b : ℚ) < (a : ℚ) + (b : ℚ) := by exact_mod_cast hb_lt
      push_cast
      nlinarith
    · rw [div_le_iff₀ hbq]
      exact_mod_cast ha_le
  rw [hceil]
  exact Int.toNat_natCast n

/-- The section count as integer ceiling division. -/
lemma numCaptures_eq (t v : Nat) (hv : 0 < v) :
    numCaptures t v = (min t CAPTURE_CONFIG.maxPageHeight + v - 1) / v := by
  unfold numCaptures
  exact toNat_ceil_natCast_div _ v hv

lemma jsSlice_length_le (s : String) (n : Nat) : (jsSlice s n).length ≤ n := by
  have h : (jsSlice s n).length = (s.data.take n).length := rfl
  rw [h, List.length_take]
  exact min_le_left _ _

/-! ### C3: section-count law -/

/-- C3: for every positive viewportHeight the stitcher section count is the
ceiling of min(totalHeight, maxPageHeight) / viewportHeight with
maxPageHeight = 120000; totalHeight 5000 at viewport 1000 gives 5 sections
and totalHeight 200000 gives 120 (clamped, not 200). -/
theorem numCaptures_law :
    (∀ t v : Nat, 0 < v → numCaptures t v = (min t 120000 + v - 1) / v) ∧
    CAPTURE_CONFIG.maxPageHeight = 120000 ∧
    numCaptures 5000 1000 = 5 ∧ numCaptures 200000 1000 = 120 := by
  refine ⟨fun t v hv => ?_, rfl, ?_, ?_⟩
  · rw [numCaptures_eq t v hv]
    rfl
  · rw [numCaptures_eq 5000 1000 (by norm_num)]
    decide
  · rw [numCaptures_eq 200000 1000 (by norm_num)]
    decide

/-- Witness for C3: the general law applied at totalHeight 5000 and
viewportHeight 1000. -/
theorem numCaptures_law_witness :
    numCaptures 5000 1000 = (min 5000 120000 + 1000 - 1) / 1000 :=
  numCaptures_law.1 5000 1000 (by norm_num)

/-! ### C10: truncation asymmetry -/

/-- C10: the fallback extractor and the lite extractor slice the plain text
to at most 50000 characters, while a successful Readability result carries
its plain text through unchanged (a 50001-character text stays 50001
characters long). -/
theorem textContent_truncation_asymmetry :
    (∀ doc : FallbackDoc, (extractFallback doc).textContent.length ≤ 50000) ∧
    (∀ doc : LiteDoc, (extractContentLite doc).textContent.length ≤ 50000) ∧
    (∀ (a : ReadabilityArticle) (c : String) (imgs : List ExtractedImage) (pt : PageType),
      (extractWithReadability (some a) c imgs pt).map (fun r => r.textContent) =
        some (a.textContent.getD "")) ∧
    ((extractWithReadability
        (some ⟨"T", some (String.mk (List.replicate 50001 'a')), none, none⟩)
        "" [] PageType.generic).map (fun r => r.textContent) =
      some (String.mk (List.replicate 50001 'a')) ∧
      50000 < (String.mk (List.replicate 50001 'a')).length) := by
  refine ⟨fun doc => ?_, fun doc => ?_, fun a c imgs pt => rfl, rfl, ?_⟩
  · exact jsSlice_length_le _ _
  · exact jsSlice_length_le _ _
  · have h : (String.mk (List.replicate 50001 'a')).length = 50001 := by
      show (List.replicate 50001 'a').length = 50001
      rw [List.length_replicate]
    omega

/-! ### C8: extraction failure handling -/

/-- C8: the EXTRACT_CONTENT handler always answers with an
EXTRACTION_COMPLETE message, and on an internal failure the answer carries
the minimal placeholder (title falls back to Unknown Page, failure-notice
content, no images, generic page type, confidence 0). -/
theorem extract_handler_total :
    ∀ (docTitle url : String) (outcome : Except String ExtractedContent),
      (handleExtractContent docTitle url outcome).msgType = "EXTRACTION_COMPLETE" ∧
      (∀ e, outcome = Except.error e →
        (handleExtractContent docTitle url outcome).content =
          ⟨if docTitle = "" then "Unknown Page" else docTitle,
            "<p>Content extraction failed</p>", "Content extraction failed",
            none, none, [], PageType.generic, 0⟩) := by
  intro docTitle url outcome
  cases outcome with
  | ok c => exact ⟨rfl, fun e he => by cases he⟩
  | error e0 =>
    refine ⟨rfl, fun e _ => ?_⟩
    simp [handleExtractContent, placeholderContent, jsOr]

/-- Witness for C8: at an empty page title and a failing extraction, the
response is EXTRACTION_COMPLETE with the Unknown Page placeholder. -/
theorem extract_handler_total_witness :
    (handleExtractContent "" "https://e.com" (Except.error "x")).msgType =
        "EXTRACTION_COMPLETE" ∧
    (handleExtractContent "" "https://e.com" (Except.error "x")).content =
      ⟨"Unknown Page", "<p>Content extraction failed</p>", "Content extraction failed",
        none, none, [], PageType.generic, 0⟩ := by
  have h := extract_handler_total "" "https://e.com" (Except.error "x")
  refine ⟨h.1, ?_⟩
  have h2 := h.2 "x" rfl
  simpa using h2

/-! ### C9: page-type priority -/

/-- C9: classification priority: a social-media domain match wins regardless
of structure; otherwise a forum indicator match yields forum; otherwise the
structural score decides article (iff score at least 3); otherwise generic. -/
theorem detectPageType_priority :
    ∀ (url host : String) (d : ArticleSignals),
      (SOCIAL_MEDIA_DOMAINS.any (fun dom => strIncludes (jsLower host) dom) = true →
        detectPageType url host d = PageType.socialMedia) ∧
      (SOCIAL_MEDIA_DOMAINS.any (fun dom => strIncludes (jsLower host) dom) = false →
        FORUM_INDICATORS.any
            (fun ind => strIncludes (jsLower host) ind || strIncludes (jsLower url) ind) = true →
        detectPageType url host d = PageType.forum) ∧
      (SOCIAL_MEDIA_DOMAINS.any (fun dom => strIncludes (jsLower host) dom) = false →
        FORUM_INDICATORS.any
            (fun ind => strIncludes (jsLower host) ind || strIncludes (jsLower url) ind) = false →
        (detectPageType url host d = PageType.article ↔ 3 ≤ articleScore d)) ∧
      (SOCIAL_MEDIA_DOMAINS.any (fun dom => strIncludes (jsLower host) dom) = false →
        FORUM_INDICATORS.any
            (fun ind => strIncludes (jsLower host) ind || strIncludes (jsLower url) ind) = false →
        ¬ 3 ≤ articleScore d →
        detectPageType url host d = PageType.generic) := by
  intro url host d
  refine ⟨fun hs => ?_, fun hs hf => ?_, fun hs hf => ?_, fun hs hf ha => ?_⟩
  · simp [detectPageType, hs]
  · simp [detectPageType, hs, hf]
  · constructor
    · intro h
      by_contra hscore
      simp [detectPageType, hs, hf, isLikelyArticle, hscore] at h
    · intro hscore
      simp [detectPageType, hs, hf, isLikelyArticle, hscore]
  · simp [detectPageType, hs, hf, isLikelyArticle, ha]

/-- Witness for C9: a page on example.com with an article tag, an author
marker and og:type article (score 5) classifies as article. -/
theorem detectPageType_priority_witness :
    detectPageType "https://example.com/post" "example.com"
      ⟨true, false, true, false, some "article"⟩ = PageType.article :=
  ((detectPageType_priority "https://example.com/post" "example.com"
      ⟨true, false, true, false, some "article"⟩).2.2.1
    (by decide) (by decide)).mpr (by decide)

/-! ### C2: confidence/fallback gate (corrected) -/

/-- C2 counterexample: with strategy heuristic and a successful primary
result (confidence 0.8 greater than 0.5), extractContent returns the primary
content, not the fallback content, so the claimed heuristic-forces-fallback
behaviour is false. -/
theorem extractContent_gate_cx :
    (extractContent ExtractionStrategy.heuristic
        (some ⟨"Primary Title", "<p>primary</p>", "primary text", none, none, [],
          PageType.article, 0.8⟩)
        ⟨"Fallback Title", "<p>fallback</p>", "fallback text", none, none, [],
          PageType.generic, 0.4⟩).content = "<p>primary</p>" ∧
    "<p>primary</p>" ≠ "<p>fallback</p>" := by
  constructor
  · have hconf : (0.5 : ℚ) < 0.8 := by norm_num
    simp [extractContent, hconf]
  · decide

/-- C2 amended: extractContent returns the primary result whenever its
confidence exceeds 0.5, regardless of strategy; the fallback result is used
when the primary path failed, and the merged fallback (fallback content and
text, primary metadata, max confidence) is returned exactly when a primary
result with confidence at most 0.5 meets strategy heuristic; with any other
strategy such a low-confidence primary result is returned unmerged. -/
theorem extractContent_gate :
    (∀ (s : ExtractionStrategy) (fb : ExtractedContent), extractContent s none fb = fb) ∧
    (∀ (r fb : ExtractedContent) (s : ExtractionStrategy), (0.5 : ℚ) < r.confidence →
      extractContent s (some r) fb = r) ∧
    (∀ (r fb : ExtractedContent), r.confidence ≤ (0.5 : ℚ) →
      extractContent ExtractionStrategy.heuristic (some r) fb =
        ⟨jsOr r.title fb.title, fb.content, fb.textContent, r.byline, r.publishedTime,
          fb.images, fb.pageType, max r.confidence fb.confidence⟩) ∧
    (∀ (r fb : ExtractedContent) (s : ExtractionStrategy), r.confidence ≤ (0.5 : ℚ) →
      s ≠ ExtractionStrategy.heuristic → extractContent s (some r) fb = r) := by
  refine ⟨fun s fb => rfl, fun r fb s h => ?_, fun r fb h => ?_, fun r fb s h hs => ?_⟩
  · simp [extractContent, h]
  · simp [extractContent, not_lt.mpr h]
  · simp [extractContent, not_lt.mpr h, hs]

/-! ### C5 and C4: viewport retry contract and delay monotonicity -/

/-- The retry loop only inspects the attempts indexed attempt to
attempt + remaining - 1. -/
lemma retryLoop_congr (a b : Nat → CaptureOutcome) (M : Nat) :
    ∀ (r attempt : Nat) (d : ℚ), (∀ i, attempt ≤ i → i < attempt + r → a i = b i) →
      retryLoop a M attempt r d = retryLoop b M attempt r d := by
  intro r
  induction r with
  | zero => intro attempt d h; rfl
  | succ r ih =>
    intro attempt d h
    have h0 : a attempt = b attempt := h attempt le_rfl (by omega)
    simp only [retryLoop, ← h0]
    cases a attempt with
    | success u => rfl
    | failure msg =>
      by_cases hc : (isRateLimitError msg && decide (attempt < M - 1)) = true
      · simp only [hc, if_true]
        exact ih (attempt + 1) (min (d * 1.5) 2000) (fun i h1 h2 => h i (by omega) (by omega))
      · rw [Bool.not_eq_true] at hc
        simp only [hc, Bool.false_eq_true, if_false]

/-- A retry-loop success starting from a delay in [0, 2000] returns a delay
that is at least the starting delay and still in [0, 2000]. -/
lemma retryLoop_ok_mono (a : Nat → CaptureOutcome) (M : Nat) :
    ∀ (r attempt : Nat) (d d2 : ℚ) (u : String),
      0 ≤ d → d ≤ 2000 → retryLoop a M attempt r d = Except.ok (u, d2) →
      0 ≤ d2 ∧ d ≤ d2 ∧ d2 ≤ 2000 := by
  intro r
  induction r with
  | zero => intro attempt d d2 u h0 h1 h; simp [retryLoop] at h
  | succ r ih =>
    intro attempt d d2 u h0 h1 h
    simp only [retryLoop] at h
    cases ha : a attempt with
    | success u2 =>
      rw [ha] at h
      simp only [Except.ok.injEq, Prod.mk.injEq] at h
      rw [← h.2]
      exact ⟨h0, le_rfl, h1⟩
    | failure msg =>
      rw [ha] at h
      by_cases hc : (isRateLimitError msg && decide (attempt < M - 1)) = true
      · simp only [hc, if_true] at h
        have hd' : d ≤ min (d * 1.5) 2000 := le_min (by nlinarith) h1
        have hd0 : (0 : ℚ) ≤ min (d * 1.5) 2000 := le_min (by nlinarith) (by norm_num)
        have hle : min (d * 1.5) 2000 ≤ 2000 := min_le_right _ _
        obtain ⟨g0, g1, g2⟩ := ih (attempt + 1) _ d2 u hd0 hle h
        exact ⟨g0, le_trans hd' g1, g2⟩
      · rw [Bool.not_eq_true] at hc
        simp only [hc, Bool.false_eq_true, if_false] at h
        simp at h

/-- C5: a non-rate-limited rejection propagates immediately; a rate-limited
rejection is retried with the delay multiplied by 1.5 and capped at 2000;
the loop inspects at most 5 attempts; five rate-limited rejections exhaust
the retries and the error is thrown. -/
theorem viewportRetry_contract :
    (∀ (d : ℚ) (a : Nat → CaptureOutcome) (msg : String),
      a 0 = CaptureOutcome.failure msg → isRateLimitError msg = false →
      captureViewportWithRetry d 5 a = Except.error msg) ∧
    (∀ (d : ℚ) (a : Nat → CaptureOutcome) (msg : String),
      a 0 = CaptureOutcome.failure msg → isRateLimitError msg = true →
      captureViewportWithRetry d 5 a = retryLoop a 5 1 4 (min (d * 1.5) 2000)) ∧
    (∀ (d : ℚ) (a b : Nat → CaptureOutcome), (∀ i, i < 5 → a i = b i) →
      captureViewportWithRetry d 5 a = captureViewportWithRetry d 5 b) ∧
    (∀ (d : ℚ) (a : Nat → CaptureOutcome) (msg : String),
      isRateLimitError msg = true → (∀ i, i < 5 → a i = CaptureOutcome.failure msg) →
      captureViewportWithRetry d 5 a = Except.error msg) := by
  refine ⟨fun d a msg h0 hrl => ?_, fun d a msg h0 hrl => ?_,
    fun d a b h => ?_, fun d a msg hrl h => ?_⟩
  · simp [captureViewportWithRetry, retryLoop, h0, hrl]
  · simp [captureViewportWithRetry, retryLoop, h0, hrl]
  · exact retryLoop_congr a b 5 5 0 d (fun i h1 h2 => h i (by omega))
  · have h0 := h 0 (by norm_num)
    have h1 := h 1 (by norm_num)
    have h2 := h 2 (by norm_num)
    have h3 := h 3 (by norm_num)
    have h4 := h 4 (by norm_num)
    simp [captureViewportWithRetry, retryLoop, h0, h1, h2, h3, h4, hrl]

/-- Witness for C5: a first-attempt rejection without the rate-limit
signature is propagated unchanged. -/
theorem viewportRetry_contract_witness :
    captureViewportWithRetry 550 5 (fun _ => CaptureOutcome.failure "boom") =
      Except.error "boom" :=
  viewportRetry_contract.1 550 (fun _ => CaptureOutcome.failure "boom") "boom"
    rfl (by decide)

/-- The adaptive-delay values recorded at the start of the executed sections
form a monotone chain, given any starting delay in [0, 2000]. -/
lemma stitchLoop_trace (env : Nat → Nat → CaptureOutcome) (vh orig : Nat) :
    ∀ (remaining i : Nat) (d : ℚ) (canvas : List (String × Nat)),
      0 ≤ d → d ≤ 2000 →
      List.Chain' (fun x y : ℚ => x ≤ y)
          ((stitchLoop env vh orig i remaining d canvas).delayTrace) ∧
      ∀ x ∈ (stitchLoop env vh orig i remaining d canvas).delayTrace, d ≤ x := by
  intro remaining
  induction remaining with
  | zero =>
    intro i d canvas h0 h1
    exact ⟨by simp [stitchLoop], by simp [stitchLoop]⟩
  | succ r ih =>
    intro i d canvas h0 h1
    simp only [stitchLoop]
    cases hres : captureViewportWithRetry d 5 (env i) with
    | ok p =>
      obtain ⟨u, d2⟩ := p
      obtain ⟨g0, g1, g2⟩ := retryLoop_ok_mono (env i) 5 5 0 d d2 u h0 h1 hres
      obtain ⟨c1, c2⟩ := ih (i + 1) d2 ((u, i * vh) :: canvas) g0 g2
      constructor
      · rw [List.chain'_cons']
        exact ⟨fun y hy => le_trans g1 (c2 y (List.mem_of_mem_head? hy)), c1⟩
      · intro x hx
        rcases List.mem_cons.mp hx with h | h
        · exact le_of_eq h.symm
        · exact le_trans g1 (c2 x h)
    | error e =>
      constructor
      · simp
      · intro x hx
        simp only [List.mem_singleton] at hx
        exact le_of_eq hx.symm

/-- C4: a successful captureViewportWithRetry never returns a smaller delay
than it was given (for the delays that occur in a session, which stay in
[0, 2000]); success on the first attempt returns the delay unchanged; and
across a whole captureFullPage run the recorded adaptiveDelay values are
monotonically non-decreasing, whatever the capture outcomes are. -/
theorem adaptiveDelay_monotone :
    (∀ (d d2 : ℚ) (a : Nat → CaptureOutcome) (u : String), 0 ≤ d → d ≤ 2000 →
      captureViewportWithRetry d 5 a = Except.ok (u, d2) → d ≤ d2) ∧
    (∀ (d : ℚ) (a : Nat → CaptureOutcome) (u : String), a 0 = CaptureOutcome.success u →
      captureViewportWithRetry d 5 a = Except.ok (u, d)) ∧
    (∀ (env : Nat → Nat → CaptureOutcome) (vh th orig : Nat),
      List.Chain' (fun x y : ℚ => x ≤ y)
        ((captureFullPage env vh th orig).delayTrace)) := by
  refine ⟨fun d d2 a u h0 h1 h => (retryLoop_ok_mono a 5 5 0 d d2 u h0 h1 h).2.1,
    fun d a u h => ?_, fun env vh th orig => ?_⟩
  · simp [captureViewportWithRetry, retryLoop, h]
  · exact (stitchLoop_trace env vh orig _ 0 _ [] (by norm_num)
      (by norm_num [CAPTURE_CONFIG])).1

/-- Witness for C4: a first-attempt success at delay 550 returns 550, which
is at least 550. -/
theorem adaptiveDelay_monotone_witness : (550 : ℚ) ≤ 550 :=
  adaptiveDelay_monotone.1 550 550 (fun _ => CaptureOutcome.success "img") "img"
    (by norm_num) (by norm_num) rfl

/-! ### C1: scroll restoration (corrected) -/

/-- On a successful run the loop epilogue restores origScrollY; on a failing
run the loop aborts at the failing section's scroll offset. -/
lemma stitchLoop_scroll (env : Nat → Nat → CaptureOutcome) (vh orig : Nat) :
    ∀ (remaining i : Nat) (d : ℚ) (canvas : List (String × Nat)),
      ((stitchLoop env vh orig i remaining d canvas).outcome = Except.ok () →
        (stitchLoop env vh orig i remaining d canvas).finalScrollY = orig) ∧
      (∀ e, (stitchLoop env vh orig i remaining d canvas).outcome = Except.error e →
        ∃ j, i ≤ j ∧ j < i + remaining ∧
          (stitchLoop env vh orig i remaining d canvas).finalScrollY = j * vh) := by
  intro remaining
  induction remaining with
  | zero =>
    intro i d canvas
    exact ⟨fun _ => rfl, fun e he => by simp [stitchLoop] at he⟩
  | succ r ih =>
    intro i d canvas
    simp only [stitchLoop]
    cases hres : captureViewportWithRetry d 5 (env i) with
    | ok p =>
      obtain ⟨u, d2⟩ := p
      obtain ⟨c1, c2⟩ := ih (i + 1) d2 ((u, i * vh) :: canvas)
      refine ⟨fun hok => c1 hok, fun e he => ?_⟩
      obtain ⟨j, hj1, hj2, hj3⟩ := c2 e he
      exact ⟨j, by omega, by omega, hj3⟩
    | error e0 =>
      refine ⟨fun hok => by simp at hok, fun e he => ⟨i, le_rfl, by omega, rfl⟩⟩

/-- C1 amended: captureFullPage restores the pre-capture scroll position on
the successful exit path, but on failure at any section it propagates the
error with the page left scrolled at that section's offset (there is no
restore on the failure path). -/
theorem captureFullPage_scroll_restore :
    ∀ (env : Nat → Nat → CaptureOutcome) (vh th orig : Nat),
      ((captureFullPage env vh th orig).outcome = Except.ok () →
        (captureFullPage env vh th orig).finalScrollY = orig) ∧
      (∀ e, (captureFullPage env vh th orig).outcome = Except.error e →
        ∃ j, j < numCaptures th vh ∧
          (captureFullPage env vh th orig).finalScrollY = j * vh) := by
  intro env vh th orig
  obtain ⟨h1, h2⟩ :=
    stitchLoop_scroll env vh orig (numCaptures th vh) 0 (CAPTURE_CONFIG.rateLimitMs : ℚ) []
  refine ⟨h1, fun e he => ?_⟩
  obtain ⟨j, _, hj2, hj3⟩ := h2 e he
  exact ⟨j, by omega, hj3⟩

/-- Witness for C1 amended: with every capture succeeding, a run from
original scroll position 500 ends with the scroll position restored to
500. -/
theorem captureFullPage_scroll_restore_witness :
    (captureFullPage (fun _ _ => CaptureOutcome.success "img") 1000 3000 500).finalScrollY =
      500 := by
  apply (captureFullPage_scroll_restore (fun _ _ => CaptureOutcome.success "img")
    1000 3000 500).1
  have h3 : numCaptures 3000 1000 = 3 := by
    rw [numCaptures_eq 3000 1000 (by norm_num)]
    decide
  unfold captureFullPage
  rw [h3]
  rfl

/-- C1 counterexample: with the first section's capture rejected by a
non-rate-limit error, captureFullPage propagates the error while the page is
left scrolled to offset 0, not to the saved pre-capture position 500: the
scroll position is not restored on the failure exit path. -/
theorem captureFullPage_scroll_cx :
    (captureFullPage (fun _ _ => CaptureOutcome.failure "boom") 1000 3000 500).outcome =
        Except.error "boom" ∧
    (captureFullPage (fun _ _ => CaptureOutcome.failure "boom") 1000 3000 500).finalScrollY =
        0 ∧
    (captureFullPage (fun _ _ => CaptureOutcome.failure "boom") 1000 3000 500).finalScrollY ≠
        500 := by
  have h3 : numCaptures 3000 1000 = 3 := by
    rw [numCaptures_eq 3000 1000 (by norm_num)]
    decide
  refine ⟨?_, ?_, ?_⟩
  · unfold captureFullPage
    rw [h3]
    rfl
  · unfold captureFullPage
    rw [h3]
    rfl
  · unfold captureFullPage
    rw [h3]
    decide

/-- Witness for C2 amended: a primary result of confidence 0.8 is returned
unchanged under strategy heuristic. -/
theorem extractContent_gate_witness :
    extractContent ExtractionStrategy.heuristic
        (some ⟨"Primary Title", "<p>primary</p>", "primary text", none, none, [],
          PageType.article, 0.8⟩)
        ⟨"Fallback Title", "<p>fallback</p>", "fallback text", none, none, [],
          PageType.generic, 0.4⟩ =
      ⟨"Primary Title", "<p>primary</p>", "primary text", none, none, [],
        PageType.article, 0.8⟩ :=
  extractContent_gate.2.1 _ _ ExtractionStrategy.heuristic (by norm_num)


/-! ### Defragmenter helper lemmas -/

lemma collapseLoop_cons (th fuel : Nat) (child : DomNode) (rest : List DomNode) :
    collapseLoop th (fuel + 1) (child :: rest) =
      if isShortP th child then
        (if 3 ≤ (rest.takeWhile (isShortP th)).length + 1 then
          (⟨child.tag, mergeText child.text (rest.takeWhile (isShortP th)), child.attached⟩ :
              DomNode) ::
            collapseLoop th fuel
              ((rest.takeWhile (isShortP th)).map (fun e => ⟨e.tag, "", false⟩) ++
                rest.dropWhile (isShortP th))
        else
          child :: (rest.takeWhile (isShortP th) ++
            collapseLoop th fuel (rest.dropWhile (isShortP th))))
      else child :: collapseLoop th fuel rest := rfl

lemma collapsePure_nil (th : Nat) : collapsePure th [] = [] := by
  simp [collapsePure]

lemma collapsePure_cons (th : Nat) (b : Block) (rest : List Block) :
    collapsePure th (b :: rest) =
      if isShortPB th b then
        (if 3 ≤ (rest.takeWhile (isShortPB th)).length + 1 then
          (⟨b.tag, mergeTextB b.text (rest.takeWhile (isShortPB th))⟩ : Block) ::
            collapsePure th (rest.dropWhile (isShortPB th))
        else
          b :: (rest.takeWhile (isShortPB th) ++
            collapsePure th (rest.dropWhile (isShortPB th))))
      else b :: collapsePure th rest := by
  rw [collapsePure]

lemma isShortP_emptyP (th : Nat) : isShortP th ⟨"P", "", false⟩ = true := by
  simp [isShortP, trimmedLen, jsTrim]

lemma takeWhile_dropWhile_length {α} (p : α → Bool) (l : List α) :
    (l.takeWhile p).length + (l.dropWhile p).length = l.length := by
  rw [← List.length_append, List.takeWhile_append_dropWhile]

lemma takeWhile_nil_of_head {α} (p : α → Bool) (l : List α)
    (h : ∀ x, l.head? = some x → p x = false) : l.takeWhile p = [] := by
  cases l with
  | nil => rfl
  | cons a t => simp [List.takeWhile_cons, h a rfl]

lemma dropWhile_self_of_head {α} (p : α → Bool) (l : List α)
    (h : ∀ x, l.head? = some x → p x = false) : l.dropWhile p = l := by
  cases l with
  | nil => rfl
  | cons a t => simp [List.dropWhile_cons, h a rfl]

lemma dropWhile_self_of_takeWhile_nil {α} (p : α → Bool) (l : List α)
    (h : l.takeWhile p = []) : l.dropWhile p = l := by
  cases l with
  | nil => rfl
  | cons a t =>
    by_cases hp : p a = true
    · simp [List.takeWhile_cons, hp] at h
    · rw [Bool.not_eq_true] at hp
      simp [List.dropWhile_cons, hp]

lemma takeWhile_replicate_append {α} (p : α → Bool) (a : α) (l : List α)
    (hp : p a = true) (h : ∀ x, l.head? = some x → p x = false) :
    ∀ k, (List.replicate k a ++ l).takeWhile p = List.replicate k a := by
  intro k
  induction k with
  | zero => simpa using takeWhile_nil_of_head p l h
  | succ k ih => simp [List.replicate_succ, List.takeWhile_cons, hp, ih]

lemma dropWhile_replicate_append {α} (p : α → Bool) (a : α) (l : List α)
    (hp : p a = true) (h : ∀ x, l.head? = some x → p x = false) :
    ∀ k, (List.replicate k a ++ l).dropWhile p = l := by
  intro k
  induction k with
  | zero => simpa using dropWhile_self_of_head p l h
  | succ k ih => simp [List.replicate_succ, List.dropWhile_cons, hp, ih]

lemma head_false_of_dropWhile {α} (p : α → Bool) (l : List α) :
    ∀ x, (l.dropWhile p).head? = some x → p x = false := by
  intro x hx
  have h := List.head?_dropWhile_not p l
  rw [hx] at h
  exact h

lemma filter_attached_replicate_emptyP :
    ∀ k, (List.replicate k (⟨"P", "", false⟩ : DomNode)).filter (fun n => n.attached) = [] := by
  intro k
  induction k with
  | zero => rfl
  | succ k ih => simp [List.replicate_succ, List.filter_cons, ih]

lemma map_eq_replicate_of_forall {α β} (f : α → β) (b : β) :
    ∀ (l : List α), (∀ x ∈ l, f x = b) → l.map f = List.replicate l.length b := by
  intro l
  induction l with
  | nil => intro h; rfl
  | cons a t ih =>
    intro h
    simp only [List.map_cons, List.length_cons, List.replicate_succ]
    rw [h a (List.mem_cons_self a t), ih (fun x hx => h x (List.mem_cons_of_mem a hx))]

/-- Fuel does not matter as long as it exceeds the list length. -/
lemma collapseLoop_fuel (th : Nat) :
    ∀ (f1 : Nat) (l : List DomNode) (f2 : Nat), l.length < f1 → l.length < f2 →
      collapseLoop th f1 l = collapseLoop th f2 l := by
  intro f1
  induction f1 with
  | zero => intro l f2 h1 h2; exact absurd h1 (by omega)
  | succ f ih =>
    intro l f2 h1 h2
    cases f2 with
    | zero => exact absurd h2 (by omega)
    | succ f2 =>
      cases l with
      | nil => rfl
      | cons child rest =>
        rw [collapseLoop_cons, collapseLoop_cons]
        by_cases hs : isShortP th child = true
        · rw [if_pos hs, if_pos hs]
          by_cases hm : 3 ≤ (rest.takeWhile (isShortP th)).length + 1
          · rw [if_pos hm, if_pos hm]
            have hlen : ((rest.takeWhile (isShortP th)).map
                  (fun e => (⟨e.tag, "", false⟩ : DomNode)) ++
                rest.dropWhile (isShortP th)).length = rest.length := by
              rw [List.length_append, List.length_map]
              exact takeWhile_dropWhile_length _ _
            have hr : rest.length < f := by simp at h1; omega
            have hr2 : rest.length < f2 := by simp at h2; omega
            rw [ih _ f2 (by rw [hlen]; exact hr) (by rw [hlen]; exact hr2)]
          · rw [if_neg hm, if_neg hm]
            have hle : (rest.dropWhile (isShortP th)).length ≤ rest.length :=
              (List.dropWhile_sublist _).length_le
            have hr : (rest.dropWhile (isShortP th)).length < f := by simp at h1; omega
            have hr2 : (rest.dropWhile (isShortP th)).length < f2 := by simp at h2; omega
            rw [ih _ f2 hr hr2]
        · rw [Bool.not_eq_true] at hs
          rw [if_neg (by simp [hs]), if_neg (by simp [hs])]
          have hr : rest.length < f := by simp at h1; omega
          have hr2 : rest.length < f2 := by simp at h2; omega
          rw [ih _ f2 hr hr2]


/-- After a merge the loop revisits the emptied, detached run members; their
processing only shuffles detached nodes and contributes nothing to the
attached children. -/
lemma collapseLoop_detached_run (th : Nat) (l : List DomNode)
    (hl : ∀ x, l.head? = some x → isShortP th x = false) :
    ∀ k, ((collapseLoop th (k + l.length + 1)
        (List.replicate k (⟨"P", "", false⟩ : DomNode) ++ l)).filter (fun n => n.attached)) =
      ((collapseLoop th (l.length + 1) l).filter (fun n => n.attached)) := by
  intro k
  induction k with
  | zero => simp
  | succ k ih =>
    have hfuel : (k + 1) + l.length + 1 = (k + l.length + 1) + 1 := by omega
    rw [hfuel, List.replicate_succ, List.cons_append, collapseLoop_cons,
      if_pos (isShortP_emptyP th),
      takeWhile_replicate_append _ _ _ (isShortP_emptyP th) hl k,
      dropWhile_replicate_append _ _ _ (isShortP_emptyP th) hl k]
    by_cases hm : 3 ≤ (List.replicate k (⟨"P", "", false⟩ : DomNode)).length + 1
    · rw [if_pos hm]
      rw [List.filter_cons_of_neg (by simp)]
      rw [List.map_replicate]
      exact ih
    · rw [if_neg hm]
      rw [List.length_replicate] at hm
      have hk : k ≤ 1 := by omega
      have hloop : collapseLoop th (k + l.length + 1) l = collapseLoop th (l.length + 1) l :=
        collapseLoop_fuel th _ l _ (by omega) (by omega)
      rw [List.filter_cons_of_neg (by simp), List.filter_append,
        filter_attached_replicate_emptyP, List.nil_append, hloop]

/-- The implementation loop, started on an all-attached snapshot, computes
the pure one-pass description. -/
lemma collapseLoop_eq_pure_aux (th : Nat) :
    ∀ (n : Nat) (l : List Block), l.length ≤ n →
      (((collapseLoop th (l.length + 1)
          (l.map (fun b => (⟨b.tag, b.text, true⟩ : DomNode)))).filter
        (fun d => d.attached)).map (fun d => (⟨d.tag, d.text⟩ : Block))) = collapsePure th l := by
  intro n
  induction n with
  | zero =>
    intro l hl
    have h0 : l = [] := List.eq_nil_of_length_eq_zero (Nat.le_zero.mp hl)
    subst h0
    rw [collapsePure_nil]
    rfl
  | succ n ih =>
    intro l hl
    cases l with
    | nil =>
      rw [collapsePure_nil]
      rfl
    | cons b rest =>
      have hrest : rest.length ≤ n := by simp at hl; omega
      have hpf : ((isShortP th) ∘ fun b => (⟨b.tag, b.text, true⟩ : DomNode)) =
          isShortPB th := rfl
      simp only [List.map_cons, List.length_cons, collapseLoop_cons]
      by_cases hq : isShortPB th b = true
      · rw [if_pos (show isShortP th (⟨b.tag, b.text, true⟩ : DomNode) = true from hq)]
        rw [List.takeWhile_map, List.dropWhile_map, hpf]
        have hrest2_le : (rest.dropWhile (isShortPB th)).length ≤ rest.length :=
          (List.dropWhile_sublist _).length_le
        have hsum : (rest.takeWhile (isShortPB th)).length +
            (rest.dropWhile (isShortPB th)).length = rest.length :=
          takeWhile_dropWhile_length _ _
        have hhead : ∀ x, (((rest.dropWhile (isShortPB th)).map
            (fun b => (⟨b.tag, b.text, true⟩ : DomNode))).head? = some x) →
            isShortP th x = false := by
          have h := head_false_of_dropWhile (isShortP th)
            (rest.map (fun b => (⟨b.tag, b.text, true⟩ : DomNode)))
          rw [List.dropWhile_map, hpf] at h
          exact h
        by_cases hm : 3 ≤ (rest.takeWhile (isShortPB th)).length + 1
        · rw [if_pos (by rw [List.length_map]; exact hm)]
          have hmerge : mergeText b.text ((rest.takeWhile (isShortPB th)).map
              (fun b => (⟨b.tag, b.text, true⟩ : DomNode))) =
              mergeTextB b.text (rest.takeWhile (isShortPB th)) := by
            simp [mergeText, mergeTextB, List.foldl_map]
          have htags : ∀ x ∈ rest.takeWhile (isShortPB th),
              ((fun e : DomNode => (⟨e.tag, "", false⟩ : DomNode)) ∘
                (fun b : Block => (⟨b.tag, b.text, true⟩ : DomNode))) x =
              (⟨"P", "", false⟩ : DomNode) := by
            intro x hx
            have hxs : isShortPB th x = true := List.mem_takeWhile_imp hx
            have htag : x.tag = "P" := by
              have hand := (Bool.and_eq_true _ _).mp hxs
              exact beq_iff_eq.mp hand.1
            simp [Function.comp, htag]
          have hemp : ((rest.takeWhile (isShortPB th)).map
                (fun b => (⟨b.tag, b.text, true⟩ : DomNode))).map
                (fun e => (⟨e.tag, "", false⟩ : DomNode)) =
              List.replicate (rest.takeWhile (isShortPB th)).length
                (⟨"P", "", false⟩ : DomNode) := by
            rw [List.map_map]
            rw [map_eq_replicate_of_forall _ _ _ htags]
          rw [hmerge, hemp]
          have hfuelstep : collapseLoop th (rest.length + 1)
                (List.replicate (rest.takeWhile (isShortPB th)).length
                    (⟨"P", "", false⟩ : DomNode) ++
                  (rest.dropWhile (isShortPB th)).map
                    (fun b => (⟨b.tag, b.text, true⟩ : DomNode))) =
              collapseLoop th
                ((rest.takeWhile (isShortPB th)).length +
                  ((rest.dropWhile (isShortPB th)).map
                    (fun b => (⟨b.tag, b.text, true⟩ : DomNode))).length + 1)
                (List.replicate (rest.takeWhile (isShortPB th)).length
                    (⟨"P", "", false⟩ : DomNode) ++
                  (rest.dropWhile (isShortPB th)).map
                    (fun b => (⟨b.tag, b.text, true⟩ : DomNode))) := by
            apply collapseLoop_fuel
            · simp
              omega
            · simp
          rw [hfuelstep]
          rw [List.filter_cons_of_pos (by simp)]
          rw [collapseLoop_detached_run th _ hhead (rest.takeWhile (isShortPB th)).length]
          simp only [List.map_cons]
          rw [show ((rest.dropWhile (isShortPB th)).map
              (fun b => (⟨b.tag, b.text, true⟩ : DomNode))).length =
              (rest.dropWhile (isShortPB th)).length from List.length_map _ _]
          rw [ih (rest.dropWhile (isShortPB th)) (le_trans hrest2_le hrest)]
          rw [collapsePure_cons, if_pos hq, if_pos hm]
        · rw [if_neg (by rw [List.length_map]; exact hm)]
          have hfuelstep : collapseLoop th (rest.length + 1)
                ((rest.dropWhile (isShortPB th)).map
                  (fun b => (⟨b.tag, b.text, true⟩ : DomNode))) =
              collapseLoop th
                (((rest.dropWhile (isShortPB th)).map
                  (fun b => (⟨b.tag, b.text, true⟩ : DomNode))).length + 1)
                ((rest.dropWhile (isShortPB th)).map
                  (fun b => (⟨b.tag, b.text, true⟩ : DomNode))) := by
            apply collapseLoop_fuel
            · simp
              omega
            · omega
          rw [hfuelstep]
          rw [List.filter_cons_of_pos (by simp), List.filter_append]
          have hfilter_run : ((rest.takeWhile (isShortPB th)).map
              (fun b => (⟨b.tag, b.text, true⟩ : DomNode))).filter (fun d => d.attached) =
              (rest.takeWhile (isShortPB th)).map
                (fun b => (⟨b.tag, b.text, true⟩ : DomNode)) := by
            rw [List.filter_map]
            rw [show ((fun d : DomNode => d.attached) ∘
                (fun b : Block => (⟨b.tag, b.text, true⟩ : DomNode))) =
                (fun _ => true) from rfl]
            rw [List.filter_true]
          rw [hfilter_run]
          simp only [List.map_cons, List.map_append, List.map_map]
          have hstrip : ((fun d : DomNode => (⟨d.tag, d.text⟩ : Block)) ∘
              (fun b : Block => (⟨b.tag, b.text, true⟩ : DomNode))) = id := rfl
          rw [hstrip, List.map_id]
          rw [show ((rest.dropWhile (isShortPB th)).map
              (fun b => (⟨b.tag, b.text, true⟩ : DomNode))).length =
              (rest.dropWhile (isShortPB th)).length from List.length_map _ _]
          rw [ih (rest.dropWhile (isShortPB th)) (le_trans hrest2_le hrest)]
          rw [collapsePure_cons, if_pos hq, if_neg hm]
      · rw [Bool.not_eq_true] at hq
        have hq2 : isShortP th (⟨b.tag, b.text, true⟩ : DomNode) = false := hq
        rw [if_neg (by rw [hq2]; exact Bool.false_ne_true)]
        rw [List.filter_cons_of_pos (by simp)]
        simp only [List.map_cons]
        rw [ih rest hrest]
        rw [collapsePure_cons, if_neg (by rw [hq]; exact Bool.false_ne_true)]

/-- collapseFragmentedParagraphs computes the pure one-pass description. -/
lemma collapseFragmentedParagraphs_eq_pure (th : Nat) (l : List Block) :
    collapseFragmentedParagraphs th l = collapsePure th l := by
  unfold collapseFragmentedParagraphs
  exact collapseLoop_eq_pure_aux th l.length l le_rfl


/-! ### hasRun3 lemmas and idempotence -/

lemma hasRun3_cons_first (th : Nat) (a : Block) (t : List Block)
    (h : isShortPB th a = false) : hasRun3 th (a :: t) = hasRun3 th t := by
  match t with
  | [] => simp [hasRun3]
  | [x] => simp [hasRun3]
  | x :: y :: t2 => simp [hasRun3, h]

lemma hasRun3_cons_second (th : Nat) (a x : Block) (t : List Block)
    (h : isShortPB th x = false) : hasRun3 th (a :: x :: t) = hasRun3 th (x :: t) := by
  match t with
  | [] => simp [hasRun3]
  | y :: t2 => simp [hasRun3, h]

lemma hasRun3_cons_third (th : Nat) (a x y : Block) (t : List Block)
    (h : isShortPB th y = false) : hasRun3 th (a :: x :: y :: t) = hasRun3 th (x :: y :: t) := by
  simp [hasRun3, h]

lemma hasRun3_tail (th : Nat) (a : Block) (t : List Block)
    (h : hasRun3 th (a :: t) = false) : hasRun3 th t = false := by
  match t with
  | [] => simp [hasRun3]
  | [x] => simp [hasRun3]
  | x :: y :: t2 =>
    simp only [hasRun3, Bool.or_eq_false_iff] at h
    exact h.2

/-- A collapsed list never contains three consecutive short paragraphs. -/
lemma collapsePure_no_run3 (th : Nat) :
    ∀ (n : Nat) (l : List Block), l.length ≤ n →
      hasRun3 th (collapsePure th l) = false := by
  intro n
  induction n with
  | zero =>
    intro l hl
    have h0 : l = [] := List.eq_nil_of_length_eq_zero (Nat.le_zero.mp hl)
    subst h0
    rw [collapsePure_nil]
    rfl
  | succ n ih =>
    intro l hl
    cases l with
    | nil =>
      rw [collapsePure_nil]
      rfl
    | cons b rest =>
      have hrest : rest.length ≤ n := by simp at hl; omega
      by_cases hq : isShortPB th b = true
      · by_cases hm : 3 ≤ (rest.takeWhile (isShortPB th)).length + 1
        · -- merge branch
          rw [collapsePure_cons, if_pos hq, if_pos hm]
          cases hr2 : rest.dropWhile (isShortPB th) with
          | nil =>
            rw [collapsePure_nil]
            rfl
          | cons c r =>
            have hc : isShortPB th c = false := by
              have h := head_false_of_dropWhile (isShortPB th) rest
              rw [hr2] at h
              exact h c rfl
            have hlen : (c :: r).length ≤ n := by
              have h1 : (rest.dropWhile (isShortPB th)).length ≤ rest.length :=
                (List.dropWhile_sublist _).length_le
              rw [hr2] at h1
              simp at h1 ⊢
              omega
            have hout2 : collapsePure th (c :: r) = c :: collapsePure th r := by
              rw [collapsePure_cons, if_neg (by rw [hc]; exact Bool.false_ne_true)]
            rw [hout2, hasRun3_cons_second th _ c _ hc, ← hout2]
            exact ih (c :: r) hlen
        · -- no merge: the run has length at most 1
          cases rest with
          | nil =>
            rw [collapsePure_cons, if_pos hq]
            simp only [List.takeWhile_nil, List.dropWhile_nil, List.length_nil]
            rw [if_neg (by omega)]
            rw [collapsePure_nil]
            rfl
          | cons c r =>
            by_cases hc : isShortPB th c = true
            · -- run = [c]; the element after c (if any) is long or non-P
              have htw : r.takeWhile (isShortPB th) = [] := by
                cases hrr : r.takeWhile (isShortPB th) with
                | nil => rfl
                | cons x xs =>
                  exfalso
                  apply hm
                  simp [List.takeWhile_cons, hc, hrr]
              have hdw : r.dropWhile (isShortPB th) = r :=
                dropWhile_self_of_takeWhile_nil _ _ htw
              have htw2 : (c :: r).takeWhile (isShortPB th) = [c] := by
                simp [List.takeWhile_cons, hc, htw]
              have hdw2 : (c :: r).dropWhile (isShortPB th) = r := by
                simp [List.dropWhile_cons, hc, hdw]
              have hout : collapsePure th (b :: c :: r) = b :: c :: collapsePure th r := by
                rw [collapsePure_cons, if_pos hq, htw2, hdw2]
                rw [if_neg (by simp)]
                rfl
              rw [hout]
              cases hrcase : r with
              | nil =>
                rw [collapsePure_nil]
                simp [hasRun3]
              | cons d r2 =>
                have hd : isShortPB th d = false := by
                  by_contra hdt
                  rw [Bool.not_eq_false] at hdt
                  rw [hrcase] at htw
                  simp [List.takeWhile_cons, hdt] at htw
                have hout2 : collapsePure th (d :: r2) = d :: collapsePure th r2 := by
                  rw [collapsePure_cons, if_neg (by rw [hd]; exact Bool.false_ne_true)]
                rw [hout2, hasRun3_cons_third th b c d _ hd,
                  hasRun3_cons_second th c d _ hd, ← hout2]
                have hlen : (d :: r2).length ≤ n := by
                  rw [hrcase] at hrest
                  simp at hrest ⊢
                  omega
                exact ih (d :: r2) hlen
            · -- run = []: c is long or non-P
              rw [Bool.not_eq_true] at hc
              have htw : (c :: r).takeWhile (isShortPB th) = [] := by
                simp [List.takeWhile_cons, hc]
              have hdw : (c :: r).dropWhile (isShortPB th) = c :: r := by
                simp [List.dropWhile_cons, hc]
              have hout : collapsePure th (b :: c :: r) = b :: collapsePure th (c :: r) := by
                rw [collapsePure_cons, if_pos hq, htw, hdw]
                rw [if_neg (by simp)]
                simp
              have hout2 : collapsePure th (c :: r) = c :: collapsePure th r := by
                rw [collapsePure_cons, if_neg (by rw [hc]; exact Bool.false_ne_true)]
              rw [hout, hout2, hasRun3_cons_second th b c _ hc, ← hout2]
              exact ih (c :: r) hrest
      · rw [Bool.not_eq_true] at hq
        rw [collapsePure_cons, if_neg (by rw [hq]; exact Bool.false_ne_true)]
        rw [hasRun3_cons_first th b _ hq]
        exact ih rest hrest

/-- On a list without a mergeable run the pass is the identity. -/
lemma collapsePure_id_of_no_run3 (th : Nat) :
    ∀ (n : Nat) (l : List Block), l.length ≤ n → hasRun3 th l = false →
      collapsePure th l = l := by
  intro n
  induction n with
  | zero =>
    intro l hl _
    have h0 : l = [] := List.eq_nil_of_length_eq_zero (Nat.le_zero.mp hl)
    subst h0
    exact collapsePure_nil th
  | succ n ih =>
    intro l hl hr3
    cases l with
    | nil => exact collapsePure_nil th
    | cons b rest =>
      have hrest : rest.length ≤ n := by simp at hl; omega
      by_cases hq : isShortPB th b = true
      · cases rest with
        | nil =>
          rw [collapsePure_cons, if_pos hq]
          simp only [List.takeWhile_nil, List.dropWhile_nil, List.length_nil]
          rw [if_neg (by omega)]
          rw [collapsePure_nil]
          rfl
        | cons c r =>
          by_cases hc : isShortPB th c = true
          · cases r with
            | nil =>
              have htw : [c].takeWhile (isShortPB th) = [c] := by
                simp [List.takeWhile_cons, hc]
              have hdw : [c].dropWhile (isShortPB th) = [] := by
                simp [List.dropWhile_cons, hc]
              rw [collapsePure_cons, if_pos hq, htw, hdw]
              rw [if_neg (by simp)]
              rw [collapsePure_nil]
              rfl
            | cons d r2 =>
              have hd : isShortPB th d = false := by
                by_contra hdt
                rw [Bool.not_eq_false] at hdt
                simp [hasRun3, hq, hc, hdt] at hr3
              have htw : (c :: d :: r2).takeWhile (isShortPB th) = [c] := by
                simp [List.takeWhile_cons, hc, hd]
              have hdw : (c :: d :: r2).dropWhile (isShortPB th) = d :: r2 := by
                simp [List.dropWhile_cons, hc, hd]
              rw [collapsePure_cons, if_pos hq, htw, hdw]
              rw [if_neg (by simp)]
              have ht1 : hasRun3 th (c :: d :: r2) = false := hasRun3_tail th b _ hr3
              have ht2 : hasRun3 th (d :: r2) = false := hasRun3_tail th c _ ht1
              have hlen : (d :: r2).length ≤ n := by simp at hrest ⊢; omega
              rw [ih (d :: r2) hlen ht2]
              rfl
          · rw [Bool.not_eq_true] at hc
            have htw : (c :: r).takeWhile (isShortPB th) = [] := by
              simp [List.takeWhile_cons, hc]
            have hdw : (c :: r).dropWhile (isShortPB th) = c :: r := by
              simp [List.dropWhile_cons, hc]
            rw [collapsePure_cons, if_pos hq, htw, hdw]
            rw [if_neg (by simp)]
            rw [ih (c :: r) hrest (hasRun3_tail th b _ hr3)]
            rfl
      · rw [Bool.not_eq_true] at hq
        rw [collapsePure_cons, if_neg (by rw [hq]; exact Bool.false_ne_true)]
        rw [ih rest hrest (hasRun3_tail th b _ hr3)]

/-- One pass is a fixed point of the next pass. -/
lemma collapsePure_idem (th : Nat) (l : List Block) :
    collapsePure th (collapsePure th l) = collapsePure th l :=
  collapsePure_id_of_no_run3 th (collapsePure th l).length (collapsePure th l) le_rfl
    (collapsePure_no_run3 th l.length l le_rfl)

/-- C7: collapseFragmentedParagraphs is idempotent: a second run with the
same threshold leaves the container's children unchanged. -/
theorem defrag_idempotent :
    ∀ (threshold : Nat) (blocks : List Block),
      collapseFragmentedParagraphs threshold (collapseFragmentedParagraphs threshold blocks) =
        collapseFragmentedParagraphs threshold blocks := by
  intro th l
  rw [collapseFragmentedParagraphs_eq_pure, collapseFragmentedParagraphs_eq_pure]
  exact collapsePure_idem th l

set_option maxRecDepth 100000 in
/-- C6: for every container of sibling blocks and every threshold, the
defragmenter equals the one-pass description collapsePure, which merges each
maximal run of three or more consecutive short paragraphs into the run's
first block (single-space-separated, trailing members removed), passes runs
of length 1 or 2 through untouched, and handles every block that is not a
short paragraph independently, so a preceding long block cannot suppress a
merge.  In particular, with the default threshold 80, a run of three shorts
after a 120-character paragraph merges into one block with single-space
separators, while a run of only two shorts is left untouched, also after a
long block. -/
theorem defrag_merge_run_law :
    (∀ (threshold : Nat) (blocks : List Block),
      collapseFragmentedParagraphs threshold blocks = collapsePure threshold blocks) ∧
    collapseFragmentedParagraphs SHORT_PARAGRAPH_THRESHOLD
        [⟨"P", String.mk (List.replicate 120 'a')⟩, ⟨"P", "alpha"⟩, ⟨"P", "beta"⟩,
          ⟨"P", "gamma"⟩] =
      [⟨"P", String.mk (List.replicate 120 'a')⟩, ⟨"P", "alpha beta gamma"⟩] ∧
    collapseFragmentedParagraphs SHORT_PARAGRAPH_THRESHOLD
        [⟨"P", "alpha"⟩, ⟨"P", "beta"⟩] = [⟨"P", "alpha"⟩, ⟨"P", "beta"⟩] ∧
    collapseFragmentedParagraphs SHORT_PARAGRAPH_THRESHOLD
        [⟨"P", String.mk (List.replicate 120 'a')⟩, ⟨"P", "alpha"⟩, ⟨"P", "beta"⟩] =
      [⟨"P", String.mk (List.replicate 120 'a')⟩, ⟨"P", "alpha"⟩, ⟨"P", "beta"⟩] := by
  refine ⟨fun threshold blocks => collapseFragmentedParagraphs_eq_pure threshold blocks,
    by decide, by decide, by decide⟩

end Evidence
